import Mathlib

/-!
Verification of the news-agent repository: a shallow embedding of its
string-processing, indexing, retrieval and request-handling logic, with
theorems settling the specification claims.

Conventions of the embedding:
* JavaScript strings are modelled as Lean `String` / `List Char`
  (`substring`, `slice`, `indexOf`, `lastIndexOf` get faithful JS
  index normalization, including negative indices);
* `Buffer.from(url).toString('base64')` is modelled by UTF-8 bytes fed
  to a standard base64 encoder;
* external services (fetch, cheerio, Gemini, Pinecone, JSON.parse) are
  oracles: functions supplied as parameters whose outcomes the code
  branches on; the vector store is explicit state (`VStore`).
-/

/-! ## JS string primitives -/

/-- JS `String.prototype.substring(0, n)` (start fixed at 0). -/
def jsSubstring (s : String) (n : Nat) : String :=
  String.mk (s.data.take n)

/-- JS index normalization used by `slice`: negative indices count from
the end and clamp at 0; non-negative indices clamp at the length. -/
def jsNormIdx (len : Nat) (x : Int) : Nat :=
  if x < 0 then len - (-x).toNat else min x.toNat len

/-- JS `String.prototype.slice(s, e)` on a character list. -/
def jsSlice (l : List Char) (s e : Int) : List Char :=
  let a := jsNormIdx l.length s
  let b := jsNormIdx l.length e
  (l.drop a).take (b - a)

/-- First index of a character, `none` when absent. -/
def indexOfAux : List Char → Char → Option Nat
  | [], _ => none
  | x :: xs, c => if x = c then some 0 else (indexOfAux xs c).map (fun i => i + 1)

/-- JS `String.prototype.indexOf` for a single character: -1 when absent. -/
def jsIndexOf (l : List Char) (c : Char) : Int :=
  match indexOfAux l c with
  | some i => (i : Int)
  | none => -1

/-- JS `String.prototype.lastIndexOf` for a single character: -1 when absent. -/
def jsLastIndexOf (l : List Char) (c : Char) : Int :=
  match indexOfAux l.reverse c with
  | some i => (l.length : Int) - 1 - (i : Int)
  | none => -1

/-! ## Base64 (Node `Buffer.toString('base64')`) -/

def b64alphabet : List Char :=
  "ABCDEFGHIJKLMNOPQRSTUVWXYZabcdefghijklmnopqrstuvwxyz0123456789+/".data

/-- Sextet value to base64 character. -/
def alpha (n : Nat) : Char := b64alphabet.getD n 'A'

/-- Base64 character back to its sextet value. -/
def alphaInv (c : Char) : Option Nat := b64alphabet.findIdx? (fun x => x = c)

/-- Standard base64 of a byte sequence, with `=` padding, as produced by
Node `Buffer.toString('base64')`. -/
def b64encode : List Nat → List Char
  | a :: b :: c :: rest =>
    alpha (a / 4) :: alpha (a % 4 * 16 + b / 16) :: alpha (b % 16 * 4 + c / 64)
      :: alpha (c % 64) :: b64encode rest
  | [a, b] => [alpha (a / 4), alpha (a % 4 * 16 + b / 16), alpha (b % 16 * 4), '=']
  | [a] => [alpha (a / 4), alpha (a % 4 * 16), '=', '=']
  | [] => []

/-- Base64 decoder, the left inverse used to establish injectivity of
`b64encode` on byte sequences. -/
def b64decode : List Char → Option (List Nat)
  | e1 :: e2 :: e3 :: e4 :: rest =>
    match alphaInv e1, alphaInv e2 with
    | some s1, some s2 =>
      if e3 = '=' then
        if e4 = '=' ∧ rest = [] then some [s1 * 4 + s2 / 16] else none
      else
        match alphaInv e3 with
        | some s3 =>
          if e4 = '=' then
            if rest = [] then some [s1 * 4 + s2 / 16, s2 % 16 * 16 + s3 / 4] else none
          else
            match alphaInv e4, b64decode rest with
            | some s4, some tail =>
              some ((s1 * 4 + s2 / 16) :: (s2 % 16 * 16 + s3 / 4) :: (s3 % 4 * 64 + s4) :: tail)
            | _, _ => none
        | none => none
    | _, _ => none
  | [] => some []
  | _ => none

theorem addMul_div (x u m : Nat) (hm : 0 < m) (hu : u < m) : (x * m + u) / m = x := by
  rw [Nat.add_comm, Nat.add_mul_div_right _ _ hm, Nat.div_eq_of_lt hu, Nat.zero_add]

theorem addMul_mod (x u m : Nat) (hu : u < m) : (x * m + u) % m = u := by
  rw [Nat.add_comm, Nat.add_mul_mod_self_right, Nat.mod_eq_of_lt hu]

theorem alphaInv_alpha : ∀ n, n < 64 → alphaInv (alpha n) = some n := by decide

theorem alpha_ne_pad : ∀ n, n < 64 → alpha n ≠ '=' := by decide

theorem b64decode_encode_aux :
    ∀ (fuel : Nat) (xs : List Nat), xs.length ≤ fuel → (∀ x ∈ xs, x < 256) →
      b64decode (b64encode xs) = some xs := by
  intro fuel
  induction fuel with
  | zero =>
    intro xs hl _
    have : xs = [] := List.eq_nil_of_length_eq_zero (Nat.le_zero.mp hl)
    subst this
    rfl
  | succ n ih =>
    intro xs hl hb
    match xs with
    | [] => rfl
    | [a] =>
      have ha : a < 256 := hb a (by simp)
      have h1 : a / 4 < 64 := by omega
      have h2 : a % 4 * 16 < 64 := by omega
      have t1 : a % 4 * 16 / 16 = a % 4 := Nat.mul_div_cancel _ (by norm_num)
      simp only [b64encode, b64decode, alphaInv_alpha _ h1, alphaInv_alpha _ h2,
        if_true, and_self, Option.some.injEq, List.cons.injEq, and_true, t1]
      omega
    | [a, b] =>
      have ha : a < 256 := hb a (by simp)
      have hbb : b < 256 := hb b (by simp)
      have h1 : a / 4 < 64 := by omega
      have h2 : a % 4 * 16 + b / 16 < 64 := by omega
      have h3 : b % 16 * 4 < 64 := by omega
      have t1 : (a % 4 * 16 + b / 16) / 16 = a % 4 := addMul_div _ _ _ (by norm_num) (by omega)
      have t2 : (a % 4 * 16 + b / 16) % 16 = b / 16 := addMul_mod _ _ _ (by omega)
      have t3 : b % 16 * 4 / 4 = b % 16 := Nat.mul_div_cancel _ (by norm_num)
      simp only [b64encode, b64decode, alphaInv_alpha _ h1, alphaInv_alpha _ h2,
        alphaInv_alpha _ h3, if_neg (alpha_ne_pad _ h3), if_true,
        Option.some.injEq, List.cons.injEq, and_true, t1, t2, t3]
      omega
    | a :: b :: c :: rest =>
      have ha : a < 256 := hb a (by simp)
      have hbb : b < 256 := hb b (by simp)
      have hc : c < 256 := hb c (by simp)
      have h1 : a / 4 < 64 := by omega
      have h2 : a % 4 * 16 + b / 16 < 64 := by omega
      have h3 : b % 16 * 4 + c / 64 < 64 := by omega
      have h4 : c % 64 < 64 := by omega
      have t1 : (a % 4 * 16 + b / 16) / 16 = a % 4 := addMul_div _ _ _ (by norm_num) (by omega)
      have t2 : (a % 4 * 16 + b / 16) % 16 = b / 16 := addMul_mod _ _ _ (by omega)
      have t3 : (b % 16 * 4 + c / 64) / 4 = b % 16 := addMul_div _ _ _ (by norm_num) (by omega)
      have t4 : (b % 16 * 4 + c / 64) % 4 = c / 64 := addMul_mod _ _ _ (by omega)
      have hrest : b64decode (b64encode rest) = some rest := by
        refine ih rest ?_ ?_
        · simp only [List.length_cons] at hl
          omega
        · intro x hx
          exact hb x (by simp [hx])
      simp only [b64encode, b64decode, alphaInv_alpha _ h1, alphaInv_alpha _ h2,
        alphaInv_alpha _ h3, alphaInv_alpha _ h4, if_neg (alpha_ne_pad _ h3),
        if_neg (alpha_ne_pad _ h4), hrest, Option.some.injEq, List.cons.injEq, and_true,
        t1, t2, t3, t4]
      refine ⟨by omega, by omega, by omega⟩

theorem b64encode_injOn (xs ys : List Nat)
    (hx : ∀ x ∈ xs, x < 256) (hy : ∀ y ∈ ys, y < 256)
    (h : b64encode xs = b64encode ys) : xs = ys := by
  have e1 := b64decode_encode_aux xs.length xs (Nat.le_refl _) hx
  have e2 := b64decode_encode_aux ys.length ys (Nat.le_refl _) hy
  rw [h, e2] at e1
  exact (Option.some.injEq _ _ ▸ e1).symm

theorem b64encode_length_aux :
    ∀ (fuel : Nat) (xs : List Nat), xs.length ≤ fuel →
      (b64encode xs).length ≤ 4 * ((xs.length + 2) / 3) := by
  intro fuel
  induction fuel with
  | zero =>
    intro xs hl
    have : xs = [] := List.eq_nil_of_length_eq_zero (Nat.le_zero.mp hl)
    subst this
    simp [b64encode]
  | succ n ih =>
    intro xs hl
    match xs with
    | [] => simp [b64encode]
    | [a] => simp [b64encode]
    | [a, b] => simp [b64encode]
    | a :: b :: c :: rest =>
      have hr := ih rest (by simp only [List.length_cons] at hl; omega)
      simp only [b64encode, List.length_cons]
      omega

/-! ## Vector-store ids

Both ingestion sites compute the record id with the same expression
`Buffer.from(url).toString('base64').slice(0, 64)`:
`src/kafka/consumer.ts` line 94 and the services module storeArticle
(lines 90 and 260 of the unnamed parts). -/

/-- The id computed in the Kafka consumer upsert (consumer.ts:94),
on the UTF-8 bytes of the url. -/
def consumerVectorId (urlBytes : List Nat) : List Char :=
  (b64encode urlBytes).take 64

/-- The id computed in the services storeArticle (unnamed part, lines
90 and 260), on the UTF-8 bytes of the url. -/
def storeArticleVectorId (urlBytes : List Nat) : List Char :=
  (b64encode urlBytes).take 64

/-- UTF-8 bytes of a string, as `Buffer.from(url)` produces them. -/
def stringBytes (s : String) : List Nat :=
  s.toUTF8.toList.map (fun b => b.toNat)

/-- String-level id derivation used by the stateful models. -/
def articleIdOfString (url : String) : String :=
  String.mk ((b64encode (stringBytes url)).take 64)

/-! ## Data model -/

/-- The Article record `{title, content, url, date}` shared by all four
source files. The same shape is used for the Pinecone metadata payload
(the metadata carries exactly these four keys at every upsert site). -/
structure Article where
  title : String
  content : String
  url : String
  date : String
deriving DecidableEq

/-- A `{title, url, date}` projection: the element shape of the
`sources` arrays built by the HTTP handler (server.ts:111-115,136-140). -/
structure SourceEntry where
  title : String
  url : String
  date : String
deriving DecidableEq

/-- The vector store: records keyed by id carrying an Article-shaped
metadata payload (embedding values are not consulted by any claim). -/
abbrev VStore := List (String × Article)

/-- Pinecone upsert: insert-or-overwrite keyed by record id. -/
def upsert (st : VStore) (id : String) (meta : Article) : VStore :=
  (id, meta) :: st.filter (fun r => r.1 != id)

/-- Metadata built by the services storeArticle (unnamed part, lines
93-98 and 263-268): title truncated to 1000 chars, content truncated to
5000 chars, url carried, date defaulted to the current date when falsy
(`article.date || new Date().toISOString().split('T')[0]`). -/
def mkMetadata (article : Article) (today : String) : Article :=
  { title := jsSubstring article.title 1000
    content := jsSubstring article.content 5000
    url := article.url
    date := if article.date = "" then today else article.date }

/-- The services storeArticle upsert (embedding elided: its value is
not consulted by the store model). -/
def storeArticle (article : Article) (today : String) (st : VStore) : VStore :=
  upsert st (articleIdOfString article.url) (mkMetadata article today)

/-! ## URL detection (server.ts:29-33)

`query.match(/https?:\/\/[^\s]+/)`: the leftmost match of the regex,
i.e. the earliest position where `http://` or `https://` begins and is
followed by at least one non-whitespace character, extended greedily
through the following non-whitespace characters. -/

/-- The whitespace class of the regex `\s` (ASCII part). -/
def isSpaceChar (c : Char) : Bool :=
  c = ' ' || c = '\t' || c = '\n' || c = '\r' || c = '\x0b' || c = '\x0c'

/-- Whether the regex `https?:\/\/[^\s]+` matches at the head of `l`. -/
def schemeMatchAt (l : List Char) : Bool :=
  ("http://".data.isPrefixOf l && !(l.drop 7).isEmpty
    && !isSpaceChar ((l.drop 7).headD ' '))
  || ("https://".data.isPrefixOf l && !(l.drop 8).isEmpty
    && !isSpaceChar ((l.drop 8).headD ' '))

/-- Left-to-right scan for the leftmost regex match. -/
def extractUrlAux : List Char → Option (List Char)
  | [] => none
  | c :: rest =>
    if schemeMatchAt (c :: rest) then
      some ((c :: rest).takeWhile (fun ch => !isSpaceChar ch))
    else
      extractUrlAux rest

/-- server.ts extractUrlFromQuery: first regex match or null. -/
def extractUrlFromQuery (query : String) : Option String :=
  (extractUrlAux query.data).map String.mk

/-- Maximal whitespace-delimited runs (tokens) of a character list,
used to state the claimed reading of the URL detector ("first maximal
run of non-whitespace characters beginning with http:// or https://"). -/
def tokensAux : Nat → List Char → List (List Char)
  | 0, _ => []
  | _ + 1, [] => []
  | fuel + 1, c :: rest =>
    if isSpaceChar c then tokensAux fuel rest
    else
      ((c :: rest).takeWhile (fun ch => !isSpaceChar ch))
        :: tokensAux fuel ((c :: rest).dropWhile (fun ch => !isSpaceChar ch))

def tokens (l : List Char) : List (List Char) := tokensAux l.length l

/-- The URL detector as the claim words it: the first maximal run of
non-whitespace characters that begins with `http://` or `https://`,
null when no token so begins. (A reading to be compared against
`extractUrlFromQuery`; it is not the source's behaviour.) -/
def claimedUrlExtract (query : String) : Option String :=
  ((tokens query.data).find?
      (fun t => "http://".data.isPrefixOf t || "https://".data.isPrefixOf t)).map
    String.mk

/-! ## Citation extraction (generateResponse, unnamed part lines 217-233)

The regex `\[([^\]]+)\]\(([^)]+)\)` applied with the global flag:
successive leftmost matches, each search resuming at the end of the
previous match. -/

/-- Try to match `[label](url)` at the head of the list; on success
return the captured (label, url) and the remainder after the match. -/
def matchCitationAt : List Char → Option ((List Char × List Char) × List Char)
  | '[' :: rest =>
    let lbl := rest.takeWhile (fun ch => ch ≠ ']')
    match rest.drop lbl.length, lbl with
    | ']' :: '(' :: r2, _ :: _ =>
      let url := r2.takeWhile (fun ch => ch ≠ ')')
      match r2.drop url.length, url with
      | ')' :: r3, _ :: _ => some ((lbl, url), r3)
      | _, _ => none
    | _, _ => none
  | _ => none

/-- Successive leftmost matches of the citation regex (fuel is the
input length: every step consumes at least one character). -/
def extractCitationsAux : Nat → List Char → List (List Char × List Char)
  | 0, _ => []
  | _ + 1, [] => []
  | fuel + 1, c :: rest =>
    match matchCitationAt (c :: rest) with
    | some ((lbl, url), r3) => (lbl, url) :: extractCitationsAux fuel r3
    | none => extractCitationsAux fuel rest

/-- All `[label](url)` citations of an answer text, in match order. -/
def extractCitations (l : List Char) : List (List Char × List Char) :=
  extractCitationsAux l.length l

/-- The source-collection loop of generateResponse: walk the citation
matches; for each first occurrence of a url that names a candidate
article, push that article and mark the url used. -/
def buildSources (articles : List Article) :
    List (List Char × List Char) → List String → List Article
  | [], _ => []
  | (_, url) :: rest, used =>
    let u := String.mk url
    if u ∈ used then buildSources articles rest used
    else
      match articles.find? (fun a => a.url == u) with
      | some a => a :: buildSources articles rest (u :: used)
      | none => buildSources articles rest used

/-- The `sources` list computed by generateResponse from the model
answer and the candidate articles. -/
def generateSources (answer : String) (articles : List Article) : List Article :=
  buildSources articles (extractCitations answer.data) []

/-- generateResponse's returned `{answer, sources}` pair. -/
def generateResponse (answer : String) (articles : List Article) :
    String × List Article :=
  (answer, generateSources answer articles)

/-! ## Normalizer -/

/-- The JSON substring heuristic of server.ts:57-59 and the second
services processArticle: `text.slice(text.indexOf('\x7b'),
text.lastIndexOf('\x7d') + 1)`. -/
def jsonSliceL (l : List Char) : List Char :=
  jsSlice l (jsIndexOf l '{') (jsLastIndexOf l '}' + 1)

def jsonSlice (text : String) : String := String.mk (jsonSliceL text.data)

/-- Outcome of the normalization step: either a parsed value or the
malformed-model-output failure surfaced to the caller. -/
inductive NormResult (J : Type) where
  | ok (j : J)
  | malformedModelOutput
deriving DecidableEq

/-- The brace-slicing normalizer (server.ts processArticle, and the
second services processArticle): parse the slice between the first
`\x7b` and the last `\x7d`; a parse failure is the malformed-output
error, logged and rethrown to the caller. `parse` is the external
`JSON.parse`, `none` meaning it throws. -/
def normalizeSlicing {J : Type} (parse : String → Option J) (text : String) :
    NormResult J :=
  match parse (jsonSlice text) with
  | some j => NormResult.ok j
  | none => NormResult.malformedModelOutput

/-- The first services processArticle (unnamed part lines 48-54):
`JSON.parse(result.response.text())` on the whole response, its parse
failure caught and rethrown as an invalid-response-format error. -/
def normalizeWhole {J : Type} (parse : String → Option J) (text : String) :
    NormResult J :=
  match parse text with
  | some j => NormResult.ok j
  | none => NormResult.malformedModelOutput

/-- `text` contains no `\x7b...\x7d` span: no position of `\x7b` at or
before a position of `\x7d`. -/
def NoBraceSpan (text : String) : Prop :=
  ¬ ∃ i j, i ≤ j ∧ text.data.get? i = some '{' ∧ text.data.get? j = some '}'

/-- A sample external JSON parser used to instantiate the normalizer
theorems on concrete inputs: it accepts exactly the text `\x7b\x7d`
(the empty JSON object) and rejects everything else, agreeing with
`JSON.parse` on every string the instantiations probe. -/
def parseEmptyObject : String → Option Unit :=
  fun s => if s = "\x7b\x7d" then some () else none

/-! ## Retriever (searchArticles, server.ts:67-90 and unnamed part) -/

/-- Metadata of a vector-store match; every field may be absent. -/
structure MatchMeta where
  title : Option String
  content : Option String
  url : Option String
  date : Option String
deriving DecidableEq

/-- A vector-store match: `includeMetadata` results may carry no
metadata at all. -/
structure VMatch where
  metadata : Option MatchMeta
deriving DecidableEq

/-- The Article shape searchArticles maps matches into; absent metadata
fields surface as `undefined` (`none`), mirroring
`match.metadata?.title` etc. -/
structure MappedArticle where
  title : Option String
  content : Option String
  url : Option String
  date : Option String
deriving DecidableEq

/-- `match.metadata?.field` for each of the four fields. -/
def mapMatch (m : VMatch) : MappedArticle :=
  { title := m.metadata.bind MatchMeta.title
    content := m.metadata.bind MatchMeta.content
    url := m.metadata.bind MatchMeta.url
    date := m.metadata.bind MatchMeta.date }

/-- searchArticles' result mapping over the matches the store returned
(the embedding call and the store query itself are external; the store
contract bounds `matches.length` by `topK`). -/
def searchArticles (ms : List VMatch) : List MappedArticle :=
  ms.map mapMatch

/-! ## HTTP endpoint (server.ts agentHandler) -/

/-- Outcomes of the external calls agentHandler makes, one request's
worth: processArticle, the summary generation, searchArticles, and the
answer generation. `Except.error` is a thrown error. -/
structure Oracle where
  processResult : Except String Article
  summaryResult : Except String String
  searchResult : Except String (List Article)
  answerResult : Except String String

/-- The three response shapes of POST /agent. -/
inductive AgentResponse where
  | ok (answer : String) (sources : List SourceEntry)
  | badRequest (error : String)
  | serverError (error : String) (details : String)
deriving DecidableEq

/-- server.ts agentHandler (lines 93-150): validate the query, branch
on an embedded URL, and build the response; `none` models a missing or
non-string query, `""` is the falsy string. The vector store is
threaded to make the handler's effect on it explicit. -/
def agentHandler (o : Oracle) (query : Option String) (st : VStore) :
    AgentResponse × VStore :=
  match query with
  | none => (AgentResponse.badRequest "Query is required and must be a string", st)
  | some q =>
    if q = "" then
      (AgentResponse.badRequest "Query is required and must be a string", st)
    else
      match extractUrlFromQuery q with
      | some _ =>
        match o.processResult with
        | Except.error e => (AgentResponse.serverError "Processing failed" e, st)
        | Except.ok article =>
          match o.summaryResult with
          | Except.error e => (AgentResponse.serverError "Processing failed" e, st)
          | Except.ok summary =>
            (AgentResponse.ok summary
              [⟨article.title, article.url, article.date⟩], st)
      | none =>
        match o.searchResult with
        | Except.error e => (AgentResponse.serverError "Processing failed" e, st)
        | Except.ok arts =>
          match o.answerResult with
          | Except.error e => (AgentResponse.serverError "Processing failed" e, st)
          | Except.ok ans =>
            (AgentResponse.ok ans
              (arts.map (fun a => ⟨a.title, a.url, a.date⟩)), st)

/-! ## Kafka consumer (consumer.ts startConsumer) -/

/-- Outcomes of the external calls the consumer's eachMessage makes:
fetch, cheerio extraction, Gemini generation (prompt assembly folded
into the call, with the source's substring truncations applied to its
inputs), JSON.parse of the brace slice, embedding, and the Pinecone
upsert call. -/
structure ConsumerEnv where
  fetchHtml : String → Except String String
  extractTitle : String → String
  extractContent : String → String
  modelGenerate : String → String → String → Except String String
  jsonParse : String → Except String Article
  embed : String → Except String (List Int)
  upsertCall : String → Article → Except String Unit

/-- The body of the consumer's try block (consumer.ts:52-104), up to
the article whose metadata is upserted. Any `Except.error` is a thrown
error reaching the catch. -/
def consumerPipeline (env : ConsumerEnv) (url : String) : Except String Article := do
  let html ← env.fetchHtml url
  if html = "" then
    Except.error "Failed to fetch HTML content"
  else do
    let text ← env.modelGenerate url (jsSubstring (env.extractTitle html) 200)
      (jsSubstring (env.extractContent html) 10000)
    let article ← env.jsonParse (jsonSlice text)
    let _ ← env.embed (article.title ++ "\n" ++ jsSubstring article.content 1000)
    let _ ← env.upsertCall (articleIdOfString url) article
    pure article

/-- consumer.ts eachMessage (lines 43-110): skip messages without a
valid URL, run the pipeline, upsert on success, and catch-log any
thrown error (second component: the logged error, if any). The handler
returns normally in every case — it never rethrows. -/
def eachMessage (env : ConsumerEnv) (msg : Option String) (st : VStore) :
    VStore × Option String :=
  match msg with
  | none => (st, none)
  | some url =>
    if "http".data.isPrefixOf url.data then
      match consumerPipeline env url with
      | Except.ok article => (upsert st (articleIdOfString url) article, none)
      | Except.error e => (st, some e)
    else
      (st, none)

/-- Sequential delivery of a batch of messages, as consumer.run awaits
eachMessage per message (offsets advance regardless of outcome). -/
def runMessages (env : ConsumerEnv) : List (Option String) → VStore → VStore
  | [], st => st
  | m :: rest, st => runMessages env rest (eachMessage env m st).1

/-! ## Theorems -/

theorem agentHandler_preserves_store (o : Oracle) (q : String) (st : VStore) :
    (agentHandler o (some q) st).2 = st := by
  unfold agentHandler
  by_cases h : q = ""
  · simp [h]
  · simp only [if_neg h]
    cases extractUrlFromQuery q with
    | some u =>
      cases o.processResult with
      | error e => rfl
      | ok article => cases o.summaryResult with
        | error e => rfl
        | ok s => rfl
    | none =>
      cases o.searchResult with
      | error e => rfl
      | ok arts => cases o.answerResult with
        | error e => rfl
        | ok ans => rfl

theorem buildSources_spec (articles : List Article) :
    ∀ (cits : List (List Char × List Char)) (used : List String),
      (∀ a ∈ buildSources articles cits used, a ∈ articles)
      ∧ (∀ a ∈ buildSources articles cits used, a.url ∉ used)
      ∧ ((buildSources articles cits used).map (fun a => a.url)).Nodup := by
  intro cits
  induction cits with
  | nil =>
    intro used
    refine ⟨?_, ?_, ?_⟩ <;> simp [buildSources]
  | cons p rest ih =>
    intro used
    obtain ⟨lbl, url⟩ := p
    by_cases hmem : String.mk url ∈ used
    · simpa only [buildSources, if_pos hmem] using ih used
    · cases hfind : articles.find? (fun a => a.url == String.mk url) with
      | none =>
        simpa only [buildSources, if_neg hmem, hfind] using ih used
      | some a =>
        have hina : a ∈ articles := List.mem_of_find?_eq_some hfind
        have heq : a.url = String.mk url := by
          have hp := List.find?_some hfind
          exact eq_of_beq hp
        obtain ⟨ih1, ih2, ih3⟩ := ih (String.mk url :: used)
        have hunf : buildSources articles ((lbl, url) :: rest) used
            = a :: buildSources articles rest (String.mk url :: used) := by
          simp only [buildSources, if_neg hmem, hfind]
        refine ⟨?_, ?_, ?_⟩
        · intro x hx
          rw [hunf] at hx
          rcases List.mem_cons.mp hx with h | h
          · exact h ▸ hina
          · exact ih1 x h
        · intro x hx
          rw [hunf] at hx
          rcases List.mem_cons.mp hx with h | h
          · rw [h, heq]; exact hmem
          · intro hc
            exact ih2 x h (List.mem_cons_of_mem _ hc)
        · rw [hunf]
          simp only [List.map_cons, List.nodup_cons]
          refine ⟨?_, ih3⟩
          intro hc
          obtain ⟨x, hx, hxeq⟩ := List.mem_map.mp hc
          have := ih2 x hx
          rw [hxeq, heq] at this
          exact this (List.mem_cons_self _ _)

/-- C1: the vector-store id computed at indexing time is
`base64(url)` truncated to 64 characters, identically at the consumer
upsert and at storeArticle; it is a pure function of the URL text, and
it is injective on URLs whose byte length fits inside the truncation
bound (48 bytes encode to exactly the kept 64 characters), the
formal content of "distinct ids with overwhelming probability given
the truncation length". -/
theorem c1_vector_id (u v : List Nat)
    (hu : ∀ x ∈ u, x < 256) (hv : ∀ x ∈ v, x < 256) :
    consumerVectorId u = (b64encode u).take 64
    ∧ consumerVectorId u = storeArticleVectorId u
    ∧ (u = v → storeArticleVectorId u = storeArticleVectorId v)
    ∧ (u.length ≤ 48 → v.length ≤ 48 →
        storeArticleVectorId u = storeArticleVectorId v → u = v) := by
  refine ⟨rfl, rfl, fun h => by rw [h], ?_⟩
  intro hu48 hv48 heq
  have lu : (b64encode u).length ≤ 64 := by
    have := b64encode_length_aux u.length u (Nat.le_refl _)
    omega
  have lv : (b64encode v).length ≤ 64 := by
    have := b64encode_length_aux v.length v (Nat.le_refl _)
    omega
  rw [storeArticleVectorId, storeArticleVectorId,
    List.take_of_length_le lu, List.take_of_length_le lv] at heq
  exact b64encode_injOn u v hu hv heq

theorem c1_vector_id_witness :
    consumerVectorId [104, 116, 116, 112] = (b64encode [104, 116, 116, 112]).take 64
    ∧ consumerVectorId [104, 116, 116, 112] = storeArticleVectorId [104, 116, 116, 112] := by
  have h := c1_vector_id [104, 116, 116, 112] [104, 116, 116, 112] (by decide) (by decide)
  exact ⟨h.1, h.2.1⟩

/-- C4: the cited-sources extraction of generateResponse is
deterministic in the answer text, always returns a subset of the
candidate articles, and contains at most one entry per distinct URL. -/
theorem c4_cited_sources (answer : String) (articles : List Article) :
    (∀ answer2, answer = answer2 →
      generateSources answer articles = generateSources answer2 articles)
    ∧ (∀ a ∈ generateSources answer articles, a ∈ articles)
    ∧ ((generateSources answer articles).map (fun a => a.url)).Nodup := by
  obtain ⟨h1, _, h3⟩ := buildSources_spec articles (extractCitations answer.data) []
  exact ⟨fun _ h => by rw [h], h1, h3⟩

theorem c4_cited_sources_witness :
    (⟨"t1", "c1", "u1", "d1"⟩ : Article)
        ∈ [(⟨"t1", "c1", "u1", "d1"⟩ : Article), ⟨"t2", "c2", "u2", "d2"⟩]
    ∧ ((generateSources "See [t1](u1)"
          [(⟨"t1", "c1", "u1", "d1"⟩ : Article), ⟨"t2", "c2", "u2", "d2"⟩]).map
        (fun a => a.url)).Nodup := by
  have h := c4_cited_sources "See [t1](u1)"
    [(⟨"t1", "c1", "u1", "d1"⟩ : Article), ⟨"t2", "c2", "u2", "d2"⟩]
  exact ⟨h.2.1 ⟨"t1", "c1", "u1", "d1"⟩ (by decide), h.2.2⟩

/-- C6 counterexample: a match whose metadata has no `url` is still
mapped into the output — the retriever returns an article with no url
(`none`), it does not filter it out. -/
theorem c6_counterexample :
    searchArticles [⟨some ⟨some "t", some "c", none, some "d"⟩⟩]
      = [⟨some "t", some "c", none, some "d"⟩]
    ∧ (⟨some "t", some "c", none, some "d"⟩ : MappedArticle).url = none := by
  decide

/-- C6 amended: the Retriever returns exactly one mapped record per
match (never more than the store's `topK`-bounded match list), each
output is the field-by-field metadata mapping of its match, and a match
with absent metadata surfaces as an all-`undefined` record rather than
a failure or a dropped row. -/
theorem c6_retriever (ms : List VMatch) (topK : Nat) (h : ms.length ≤ topK) :
    (searchArticles ms).length = ms.length
    ∧ (searchArticles ms).length ≤ topK
    ∧ (∀ i, (searchArticles ms).get? i = (ms.get? i).map mapMatch)
    ∧ (∀ m ∈ ms, m.metadata = none → mapMatch m = ⟨none, none, none, none⟩) := by
  refine ⟨by simp [searchArticles], by simpa [searchArticles] using h, ?_, ?_⟩
  · intro i
    simp [searchArticles, List.get?_map]
  · intro m _ hm
    simp [mapMatch, hm]

theorem c6_retriever_witness :
    (searchArticles [(⟨none⟩ : VMatch)]).length = 1
    ∧ (searchArticles [(⟨none⟩ : VMatch)]).length ≤ 3
    ∧ (searchArticles [(⟨none⟩ : VMatch)]).get? 0 = some (mapMatch ⟨none⟩)
    ∧ mapMatch (⟨none⟩ : VMatch) = ⟨none, none, none, none⟩ := by
  have h := c6_retriever [⟨none⟩] 3 (by decide)
  refine ⟨by simpa using h.1, h.2.1, by simpa using h.2.2.1 0, h.2.2.2 ⟨none⟩ (by simp) rfl⟩

/-- Concrete handler oracle: three retrieved candidates, an answer
citing only the first. -/
def c3Oracle : Oracle :=
  ⟨Except.error "", Except.error "",
    Except.ok [⟨"t1", "c1", "u1", "d1"⟩, ⟨"t2", "c2", "u2", "d2"⟩,
      ⟨"t3", "c3", "u3", "d3"⟩],
    Except.ok "See [t1](u1)"⟩

/-- C3 counterexample: with 3 retrieved candidates and an answer citing
only `u1`, the endpoint's 200 body lists all 3 sources — `u2` appears in
`sources` although it is not a regex-matched citation of the answer;
the strict citation filter (generateSources) would have kept only the
first article. -/
theorem c3_counterexample :
    (agentHandler c3Oracle (some "latest on topic X") []).1
      = AgentResponse.ok "See [t1](u1)"
          [⟨"t1", "u1", "d1"⟩, ⟨"t2", "u2", "d2"⟩, ⟨"t3", "u3", "d3"⟩]
    ∧ (extractCitations "See [t1](u1)".data).map (fun p => String.mk p.2) = ["u1"]
    ∧ ("u2" : String) ∉ (extractCitations "See [t1](u1)".data).map (fun p => String.mk p.2)
    ∧ generateSources "See [t1](u1)"
        [⟨"t1", "c1", "u1", "d1"⟩, ⟨"t2", "c2", "u2", "d2"⟩, ⟨"t3", "c3", "u3", "d3"⟩]
      = [⟨"t1", "c1", "u1", "d1"⟩] := by
  decide

/-- C3 amended: on the no-URL path the endpoint's `sources` array is
the whole retrieved candidate list (projected to title/url/date),
independent of which sources the model's answer cites; the regex-based
strict filtering lives in the services generateResponse, which the HTTP
handler does not invoke. -/
theorem c3_sources_all_candidates (o : Oracle) (q : String) (st : VStore)
    (arts : List Article) (ans : String)
    (hq : q ≠ "") (hurl : extractUrlFromQuery q = none)
    (hsearch : o.searchResult = Except.ok arts)
    (hans : o.answerResult = Except.ok ans) :
    (agentHandler o (some q) st).1
      = AgentResponse.ok ans (arts.map (fun a => ⟨a.title, a.url, a.date⟩)) := by
  unfold agentHandler
  simp only [if_neg hq, hurl, hsearch, hans]

theorem c3_sources_all_candidates_witness :
    (agentHandler c3Oracle (some "latest on topic X") []).1
      = AgentResponse.ok "See [t1](u1)"
          (([⟨"t1", "c1", "u1", "d1"⟩, ⟨"t2", "c2", "u2", "d2"⟩,
              ⟨"t3", "c3", "u3", "d3"⟩] : List Article).map
            (fun a => ⟨a.title, a.url, a.date⟩)) :=
  c3_sources_all_candidates c3Oracle "latest on topic X" []
    ([⟨"t1", "c1", "u1", "d1"⟩, ⟨"t2", "c2", "u2", "d2"⟩,
        ⟨"t3", "c3", "u3", "d3"⟩] : List Article)
    "See [t1](u1)" (by decide) (by decide) rfl rfl

/-- Handler oracles differing only in a retrieved article's content. -/
def c9OracleA : Oracle :=
  ⟨Except.error "", Except.error "", Except.ok [⟨"t", "c1", "u", "d"⟩], Except.ok "ans"⟩

def c9OracleB : Oracle :=
  ⟨Except.error "", Except.error "", Except.ok [⟨"t", "c2", "u", "d"⟩], Except.ok "ans"⟩

/-- C9 counterexample: two runs whose retrieved articles differ only in
`content` produce identical 200 responses — the `sources` elements
carry title, url and date but not content, so they are not full
four-field Article records. -/
theorem c9_counterexample :
    (agentHandler c9OracleA (some "hello") []).1
      = (agentHandler c9OracleB (some "hello") []).1
    ∧ (agentHandler c9OracleA (some "hello") []).1
      = AgentResponse.ok "ans" [⟨"t", "u", "d"⟩]
    ∧ ("c1" : String) ≠ "c2" := by
  decide

/-- C9 amended: every 200 body of POST /agent is
`{answer, sources}` where each `sources` element is the
`{title, url, date}` projection of an Article (content omitted). -/
theorem c9_response_shape (o : Oracle) (q : String) (st : VStore) (ans : String)
    (srcs : List SourceEntry)
    (h : (agentHandler o (some q) st).1 = AgentResponse.ok ans srcs) :
    ∃ arts : List Article,
      srcs = arts.map (fun a => SourceEntry.mk a.title a.url a.date) := by
  unfold agentHandler at h
  by_cases hq : q = ""
  · simp [hq] at h
  · simp only [if_neg hq] at h
    cases hurl : extractUrlFromQuery q with
    | some u =>
      rw [hurl] at h
      cases hp : o.processResult with
      | error e => rw [hp] at h; exact absurd h (by simp)
      | ok article =>
        rw [hp] at h
        cases hs : o.summaryResult with
        | error e => rw [hs] at h; exact absurd h (by simp)
        | ok s =>
          rw [hs] at h
          simp only [AgentResponse.ok.injEq] at h
          exact ⟨[article], h.2.symm⟩
    | none =>
      rw [hurl] at h
      cases hsr : o.searchResult with
      | error e => rw [hsr] at h; exact absurd h (by simp)
      | ok arts =>
        rw [hsr] at h
        cases ha : o.answerResult with
        | error e => rw [ha] at h; exact absurd h (by simp)
        | ok ans2 =>
          rw [ha] at h
          simp only [AgentResponse.ok.injEq] at h
          exact ⟨arts, h.2.symm⟩

theorem c9_response_shape_witness :
    ∃ arts : List Article,
      [(⟨"t", "u", "d"⟩ : SourceEntry)]
        = arts.map (fun a => SourceEntry.mk a.title a.url a.date) :=
  c9_response_shape c9OracleA "hello" [] "ans" [⟨"t", "u", "d"⟩] (by decide)

/-- C7: the URL-detected HTTP path leaves the vector store exactly as
it was (server.ts performs no upsert anywhere), while the queue
listener's successful processing of a URL message writes the article
under the id derived from the URL. -/
theorem c7_frame (o : Oracle) (q u : String) (st : VStore)
    (env : ConsumerEnv) (url : String) (a : Article) (st2 : VStore)
    (hu : extractUrlFromQuery q = some u)
    (hurl : "http".data.isPrefixOf url.data = true)
    (hp : consumerPipeline env url = Except.ok a) :
    (agentHandler o (some q) st).2 = st
    ∧ (eachMessage env (some url) st2).1 = upsert st2 (articleIdOfString url) a := by
  refine ⟨agentHandler_preserves_store o q st, ?_⟩
  simp only [eachMessage, hurl, if_true, hp]

/-- A consumer environment whose every external call succeeds. -/
def allOkEnv : ConsumerEnv :=
  { fetchHtml := fun _ => Except.ok "<html>"
    extractTitle := fun _ => "T"
    extractContent := fun _ => "C"
    modelGenerate := fun _ _ _ => Except.ok "\x7b\x7d"
    jsonParse := fun _ => Except.ok ⟨"t", "c", "u", "d"⟩
    embed := fun _ => Except.ok []
    upsertCall := fun _ _ => Except.ok () }

def c7Oracle : Oracle :=
  ⟨Except.ok ⟨"t", "c", "u", "d"⟩, Except.ok "a summary", Except.error "", Except.error ""⟩

theorem c7_frame_witness :
    (agentHandler c7Oracle (some "What happened at https://example.com/news/1") []).2 = []
    ∧ (eachMessage allOkEnv (some "http://x") []).1
      = upsert [] (articleIdOfString "http://x") ⟨"t", "c", "u", "d"⟩ :=
  c7_frame c7Oracle "What happened at https://example.com/news/1"
    "https://example.com/news/1" [] allOkEnv "http://x" ⟨"t", "c", "u", "d"⟩ []
    (by decide) (by decide) rfl

/-- C8: an error thrown while processing a queue message is caught by
the per-message handler, which logs it and returns normally with the
store untouched; in a batch, the failing message is consumed without
redelivery and does not affect the processing of the other messages. -/
theorem c8_errors_swallowed (env : ConsumerEnv) (url e : String) (st st0 : VStore)
    (pre post : List (Option String))
    (hurl : "http".data.isPrefixOf url.data = true)
    (herr : consumerPipeline env url = Except.error e) :
    eachMessage env (some url) st = (st, some e)
    ∧ runMessages env (pre ++ some url :: post) st0 = runMessages env (pre ++ post) st0 := by
  have hone : ∀ s : VStore, eachMessage env (some url) s = (s, some e) := by
    intro s
    simp only [eachMessage, hurl, if_true, herr]
  refine ⟨hone st, ?_⟩
  induction pre generalizing st0 with
  | nil => simp only [List.nil_append, runMessages, hone]
  | cons m pre2 ih =>
    simp only [List.cons_append, runMessages]
    exact ih _

/-- A consumer environment whose fetch always throws. -/
def fetchFailEnv : ConsumerEnv :=
  { fetchHtml := fun _ => Except.error "network down"
    extractTitle := fun _ => ""
    extractContent := fun _ => ""
    modelGenerate := fun _ _ _ => Except.error ""
    jsonParse := fun _ => Except.error ""
    embed := fun _ => Except.error ""
    upsertCall := fun _ _ => Except.error "" }

theorem c8_errors_swallowed_witness :
    eachMessage fetchFailEnv (some "http://x") [] = ([], some "network down")
    ∧ runMessages fetchFailEnv ([none] ++ some "http://x" :: [none]) []
      = runMessages fetchFailEnv ([none] ++ [none]) [] :=
  c8_errors_swallowed fetchFailEnv "http://x" "network down" [] [] [none] [none]
    (by decide) rfl

theorem except_bind_ok {ε α β : Type} (a : α) (f : α → Except ε β) :
    (Except.ok a : Except ε α) >>= f = f a := rfl

/-- An environment whose parsed article has a 1001-character title. -/
def longTitleEnv : ConsumerEnv :=
  { fetchHtml := fun _ => Except.ok "<html>"
    extractTitle := fun _ => "T"
    extractContent := fun _ => "C"
    modelGenerate := fun _ _ _ => Except.ok "\x7b\x7d"
    jsonParse := fun _ => Except.ok ⟨String.mk (List.replicate 1001 'a'), "c", "u", "2024-01-01"⟩
    embed := fun _ => Except.ok []
    upsertCall := fun _ _ => Except.ok () }

/-- C2 counterexample: the Kafka consumer's upsert
(consumer.ts:93-97) stores the parsed article itself as metadata, with
no truncation — a 1001-character title is stored at length 1001; and
even in the truncating storeArticle, an empty date is not carried
through but replaced by the current date. -/
theorem c2_counterexample :
    (eachMessage longTitleEnv (some "http://x") []).1
      = [(articleIdOfString "http://x",
          ⟨String.mk (List.replicate 1001 'a'), "c", "u", "2024-01-01"⟩)]
    ∧ (String.mk (List.replicate 1001 'a')).length = 1001
    ∧ ¬ (1001 ≤ 1000)
    ∧ (mkMetadata ⟨"t", "c", "u", ""⟩ "2026-01-01").date ≠ ("" : String) := by
  refine ⟨rfl, ?_, by decide, by decide⟩
  show (List.replicate 1001 'a').length = 1001
  rw [List.length_replicate]

/-- C2 amended: the services storeArticle builds metadata with title
truncated to at most 1000 characters and content to at most 5000, url
carried through, and date carried through when nonempty (an empty date
is replaced by the current date); the Kafka consumer's inline upsert,
by contrast, stores the parsed article as metadata unmodified. -/
theorem c2_metadata (a : Article) (today : String) (env : ConsumerEnv)
    (url html text : String) (art : Article) (emb : List Int) (st : VStore)
    (hurl : "http".data.isPrefixOf url.data = true)
    (hfetch : env.fetchHtml url = Except.ok html) (hhtml : ¬ html = "")
    (hgen : env.modelGenerate url (jsSubstring (env.extractTitle html) 200)
        (jsSubstring (env.extractContent html) 10000) = Except.ok text)
    (hparse : env.jsonParse (jsonSlice text) = Except.ok art)
    (hemb : env.embed (art.title ++ "\n" ++ jsSubstring art.content 1000)
        = Except.ok emb)
    (hup : env.upsertCall (articleIdOfString url) art = Except.ok ()) :
    (mkMetadata a today).title.length ≤ 1000
    ∧ (mkMetadata a today).content.length ≤ 5000
    ∧ (mkMetadata a today).url = a.url
    ∧ (a.date ≠ "" → (mkMetadata a today).date = a.date)
    ∧ (a.date = "" → (mkMetadata a today).date = today)
    ∧ (eachMessage env (some url) st).1 = upsert st (articleIdOfString url) art := by
  have hpipe : consumerPipeline env url = Except.ok art := by
    simp only [consumerPipeline, hfetch, except_bind_ok, if_neg hhtml, hgen,
      hparse, hemb, hup]
    rfl
  refine ⟨?_, ?_, rfl, ?_, ?_, ?_⟩
  · show (String.mk (a.title.data.take 1000)).length ≤ 1000
    show (a.title.data.take 1000).length ≤ 1000
    simp [List.length_take]
  · show (a.content.data.take 5000).length ≤ 5000
    simp [List.length_take]
  · intro h
    simp [mkMetadata, h]
  · intro h
    simp [mkMetadata, h]
  · simp only [eachMessage, hurl, if_true, hpipe]

theorem c2_metadata_witness :
    (mkMetadata ⟨"t", "c", "u", "2024-01-01"⟩ "2026-01-01").title.length ≤ 1000
    ∧ (mkMetadata ⟨"t", "c", "u", "2024-01-01"⟩ "2026-01-01").date = "2024-01-01"
    ∧ (eachMessage allOkEnv (some "http://x") []).1
      = upsert [] (articleIdOfString "http://x") ⟨"t", "c", "u", "d"⟩ := by
  have h := c2_metadata ⟨"t", "c", "u", "2024-01-01"⟩ "2026-01-01" allOkEnv
    "http://x" "<html>" "\x7b\x7d" ⟨"t", "c", "u", "d"⟩ [] []
    (by decide) rfl (by decide) rfl rfl rfl rfl
  exact ⟨h.1, h.2.2.2.1 (by decide), h.2.2.2.2.2⟩

/-- C10 counterexample: on the query `"see xhttps://a"` the detector
returns `"https://a"`, a substring that is not a maximal run of
non-whitespace characters of the query (it extends left to `x`): the
claimed token reading would return null here. -/
theorem c10_counterexample :
    extractUrlFromQuery "see xhttps://a" = some "https://a"
    ∧ claimedUrlExtract "see xhttps://a" = none := by
  decide

/-- C10 amended: the detector returns the substring starting at the
first position where `http://` or `https://` begins followed by at
least one non-whitespace character, extended through the following
non-whitespace characters (maximal to the right only); it returns null
exactly when no position matches, and minimality of the position means
only the first of several URLs is extracted. -/
theorem c10_url_detector (l : List Char) :
    (extractUrlAux l = none ↔ ∀ i, schemeMatchAt (l.drop i) = false)
    ∧ (∀ u, extractUrlAux l = some u →
        ∃ i, schemeMatchAt (l.drop i) = true
          ∧ (∀ k, k < i → schemeMatchAt (l.drop k) = false)
          ∧ u = (l.drop i).takeWhile (fun ch => !isSpaceChar ch)) := by
  induction l with
  | nil =>
    refine ⟨⟨fun _ i => by simp [schemeMatchAt], fun _ => rfl⟩, fun u hu => ?_⟩
    simp [extractUrlAux] at hu
  | cons c rest ih =>
    by_cases h : schemeMatchAt (c :: rest) = true
    · refine ⟨⟨fun hnone => ?_, fun hall => ?_⟩, fun u hu => ?_⟩
      · simp [extractUrlAux, h] at hnone
      · exact absurd (hall 0) (by simpa using h)
      · refine ⟨0, by simpa using h, fun k hk => absurd hk (Nat.not_lt_zero k), ?_⟩
        simp only [extractUrlAux, h, if_true] at hu
        simpa using hu.symm
    · have hfalse : schemeMatchAt (c :: rest) = false := by
        simpa using h
      have hstep : extractUrlAux (c :: rest) = extractUrlAux rest := by
        simp [extractUrlAux, hfalse]
      obtain ⟨ih1, ih2⟩ := ih
      refine ⟨?_, fun u hu => ?_⟩
      · rw [hstep, ih1]
        constructor
        · intro hall i
          cases i with
          | zero => simpa using hfalse
          | succ j => simpa using hall j
        · intro hall j
          simpa using hall (j + 1)
      · rw [hstep] at hu
        obtain ⟨i, hi1, hi2, hi3⟩ := ih2 u hu
        refine ⟨i + 1, by simpa using hi1, ?_, by simpa using hi3⟩
        intro k hk
        cases k with
        | zero => simpa using hfalse
        | succ j => simpa using hi2 j (by omega)

theorem c10_url_detector_witness :
    ∃ i, schemeMatchAt ("go http://a b".data.drop i) = true
      ∧ (∀ k, k < i → schemeMatchAt ("go http://a b".data.drop k) = false)
      ∧ "http://a".data
        = ("go http://a b".data.drop i).takeWhile (fun ch => !isSpaceChar ch) :=
  (c10_url_detector "go http://a b".data).2 "http://a".data (by decide)

theorem indexOfAux_eq_none {l : List Char} {c : Char} :
    indexOfAux l c = none ↔ c ∉ l := by
  induction l with
  | nil => simp [indexOfAux]
  | cons x xs ih =>
    by_cases h : x = c
    · simp [indexOfAux, h]
    · simp only [indexOfAux, if_neg h, Option.map_eq_none', ih, List.mem_cons]
      constructor
      · intro hn hc
        rcases hc with hc | hc
        · exact h hc.symm
        · exact hn hc
      · intro hn hc
        exact hn (Or.inr hc)

theorem indexOfAux_some_get {l : List Char} {c : Char} {i : Nat}
    (h : indexOfAux l c = some i) : i < l.length ∧ l.get? i = some c := by
  induction l generalizing i with
  | nil => simp [indexOfAux] at h
  | cons x xs ih =>
    by_cases hx : x = c
    · simp only [indexOfAux, if_pos hx, Option.some.injEq] at h
      subst h
      exact ⟨by simp, by simp [hx]⟩
    · simp only [indexOfAux, if_neg hx] at h
      cases hidx : indexOfAux xs c with
      | none => rw [hidx] at h; simp at h
      | some j =>
        rw [hidx] at h
        simp only [Option.map_some', Option.some.injEq] at h
        obtain ⟨hj1, hj2⟩ := ih hidx
        subst h
        exact ⟨by simp; omega, by simpa [List.get?_cons_succ] using hj2⟩

theorem indexOfAux_append_not_mem {l1 l2 : List Char} {c : Char} (h : c ∉ l1) :
    indexOfAux (l1 ++ l2) c = (indexOfAux l2 c).map (fun i => i + l1.length) := by
  induction l1 with
  | nil =>
    rw [List.nil_append]
    cases h2 : indexOfAux l2 c <;> simp [h2]
  | cons x xs ih =>
    have hx : ¬ x = c := fun he => h (he ▸ List.mem_cons_self x xs)
    have hxs : c ∉ xs := fun hm => h (List.mem_cons_of_mem _ hm)
    cases h2 : indexOfAux l2 c with
    | none =>
      have htail : indexOfAux (xs ++ l2) c = none := by
        rw [ih hxs, h2]
        rfl
      simp [List.cons_append, indexOfAux, if_neg hx, htail, h2]
    | some j =>
      have htail : indexOfAux (xs ++ l2) c = some (j + xs.length) := by
        rw [ih hxs, h2]
        rfl
      simp [List.cons_append, indexOfAux, if_neg hx, htail, h2, Nat.add_assoc]

theorem indexOfAux_head {l : List Char} {c : Char} (h : l.head? = some c) :
    indexOfAux l c = some 0 := by
  cases l with
  | nil => simp at h
  | cons x xs =>
    simp only [List.head?_cons, Option.some.injEq] at h
    simp [indexOfAux, h]

theorem drop_pred_getLast {l : List Char} {x : Char} (h : l.getLast? = some x) :
    l.drop (l.length - 1) = [x] := by
  induction l with
  | nil => simp at h
  | cons a rest ih =>
    cases rest with
    | nil =>
      simp only [List.getLast?_singleton, Option.some.injEq] at h
      simp [h]
    | cons b t =>
      rw [List.getLast?_cons_cons] at h
      have hr := ih h
      show (a :: b :: t).drop ((b :: t).length + 1 - 1) = [x]
      simp only [List.length_cons] at *
      rw [Nat.add_sub_cancel, List.drop_succ_cons]
      simpa using hr

theorem jsonSliceL_of_noSpan {l : List Char}
    (h : ¬ ∃ i j, i ≤ j ∧ l.get? i = some '{' ∧ l.get? j = some '}') :
    jsonSliceL l = [] ∨ jsonSliceL l = ['}'] := by
  unfold jsonSliceL jsSlice jsIndexOf jsLastIndexOf
  cases hA : indexOfAux l '{' with
  | none =>
    cases hB : indexOfAux l.reverse '}' with
    | none =>
      left
      have hb0 : jsNormIdx l.length (-1 + 1) = 0 := by
        simp [jsNormIdx]
      simp only [hb0, Nat.zero_sub, List.take_zero]
    | some k =>
      have hk := indexOfAux_some_get hB
      rw [List.length_reverse] at hk
      have hlen : 1 ≤ l.length := by omega
      have ha1 : jsNormIdx l.length (-1) = l.length - 1 := by
        simp [jsNormIdx]
      have hb1 : jsNormIdx l.length ((l.length : Int) - 1 - (k : Int) + 1)
          = l.length - k := by
        simp only [jsNormIdx]
        rw [if_neg (by omega)]
        omega
      simp only [ha1, hb1]
      by_cases hk0 : k = 0
      · right
        subst hk0
        have hget : l.getLast? = some '}' := by
          rw [← List.head?_reverse]
          cases hrv : l.reverse with
          | nil => simp [hrv] at hk
          | cons y ys =>
            rw [hrv] at hk
            simp only [List.get?_cons_zero, Option.some.injEq] at hk
            simp [hk.2]
        rw [drop_pred_getLast hget]
        have : l.length - 0 - (l.length - 1) = 1 := by omega
        rw [this]
        rfl
      · left
        have : l.length - k - (l.length - 1) = 0 := by omega
        rw [this, List.take_zero]
  | some i =>
    have hi := indexOfAux_some_get hA
    have hai : jsNormIdx l.length (i : Int) = i := by
      simp only [jsNormIdx]
      rw [if_neg (by omega)]
      omega
    cases hB : indexOfAux l.reverse '}' with
    | none =>
      left
      have hb0 : jsNormIdx l.length (-1 + 1) = 0 := by
        simp [jsNormIdx]
      simp only [hai, hb0, Nat.zero_sub, List.take_zero]
    | some k =>
      left
      have hk := indexOfAux_some_get hB
      rw [List.length_reverse] at hk
      have hj : l.get? (l.length - 1 - k) = some '}' := by
        have h2 := hk.2
        rw [List.get?_eq_getElem?] at h2
        rw [List.get?_eq_getElem?, ← List.getElem?_reverse hk.1]
        exact h2
      have hji : l.length - 1 - k < i := by
        by_contra hge
        push_neg at hge
        exact h ⟨i, l.length - 1 - k, hge, hi.2, hj⟩
      have hb1 : jsNormIdx l.length ((l.length : Int) - 1 - (k : Int) + 1)
          = l.length - k := by
        simp only [jsNormIdx]
        rw [if_neg (by omega)]
        omega
      simp only [hai, hb1]
      have : l.length - k - i = 0 := by omega
      rw [this, List.take_zero]

theorem jsonSliceL_append {pre body post : List Char}
    (hpre : '{' ∉ pre) (hpost : '}' ∉ post)
    (hhead : body.head? = some '{') (hlast : body.getLast? = some '}') :
    jsonSliceL (pre ++ body ++ post) = body := by
  have hbody_ne : body ≠ [] := by
    cases body
    · simp at hhead
    · simp
  have hfront : (body ++ post).head? = some '{' := by
    rw [List.head?_append_of_ne_nil _ hbody_ne]
    exact hhead
  have hA : indexOfAux (pre ++ body ++ post) '{' = some pre.length := by
    rw [List.append_assoc, indexOfAux_append_not_mem hpre, indexOfAux_head hfront]
    simp
  have hrev_ne : body.reverse ≠ [] := by
    simp [hbody_ne]
  have hrevhead : body.reverse.head? = some '}' := by
    rw [List.head?_reverse]
    exact hlast
  have hB : indexOfAux (pre ++ body ++ post).reverse '}' = some post.length := by
    rw [List.reverse_append, List.reverse_append]
    rw [indexOfAux_append_not_mem (by simpa using hpost)]
    rw [indexOfAux_head (by rw [List.head?_append_of_ne_nil _ hrev_ne]; exact hrevhead)]
    simp
  unfold jsonSliceL jsSlice jsIndexOf jsLastIndexOf
  rw [hA, hB]
  have hlen : (pre ++ body ++ post).length
      = pre.length + body.length + post.length := by
    simp
    omega
  have hblen : 1 ≤ body.length := by
    cases body
    · simp at hhead
    · simp
  have ha : jsNormIdx (pre ++ body ++ post).length (pre.length : Int)
      = pre.length := by
    simp only [jsNormIdx, hlen]
    rw [if_neg (by omega)]
    omega
  have hb : jsNormIdx (pre ++ body ++ post).length
      (((pre ++ body ++ post).length : Int) - 1 - (post.length : Int) + 1)
      = pre.length + body.length := by
    simp only [jsNormIdx, hlen]
    rw [if_neg (by omega)]
    omega
  rw [ha, hb]
  have hdrop : (pre ++ body ++ post).drop pre.length = body ++ post := by
    rw [List.append_assoc]
    exact List.drop_left pre (body ++ post)
  show List.take (pre.length + body.length - pre.length)
      (List.drop pre.length (pre ++ body ++ post)) = body
  have hsub : pre.length + body.length - pre.length = body.length := by omega
  rw [hdrop, hsub]
  exact List.take_left body post

theorem jsonSliceL_self {body : List Char} (hhead : body.head? = some '{')
    (hlast : body.getLast? = some '}') : jsonSliceL body = body := by
  have h := @jsonSliceL_append [] body [] (by simp) (by simp) hhead hlast
  simpa using h

/-- C5 counterexample: on a response wrapping valid JSON in prose, the
first services processArticle (unnamed part lines 48-54), which parses
the whole response text, fails — prose around the braces is not
tolerated there — while the brace-slicing normalizer of server.ts
succeeds on the same response. -/
theorem c5_counterexample :
    normalizeWhole parseEmptyObject "The object is \x7b\x7d here"
      = NormResult.malformedModelOutput
    ∧ normalizeSlicing parseEmptyObject "The object is \x7b\x7d here"
      = NormResult.ok ()
    ∧ parseEmptyObject "\x7b\x7d" = some () := by
  decide

/-- C5 amended: the brace-slicing normalizer (server.ts processArticle
and the second services variant) fails with the malformed-output error,
surfaced to the caller, on every response with no brace span (the slice
it parses is then `""` or `"\x7d"`, neither valid JSON), and when a
first `\x7b` and last `\x7d` exist it parses exactly the substring
between them, tolerating any prose before or after; the first services
variant instead parses the entire response text, failing whenever the
whole text is not valid JSON — prose around the braces included. -/
theorem c5_normalizer :
    (∀ (J : Type) (parse : String → Option J) (text : String),
        parse "" = none → parse "\x7d" = none → NoBraceSpan text →
        normalizeSlicing parse text = NormResult.malformedModelOutput)
    ∧ (∀ (J : Type) (parse : String → Option J) (pre body post : String),
        '{' ∉ pre.data → '}' ∉ post.data →
        body.data.head? = some '{' → body.data.getLast? = some '}' →
        normalizeSlicing parse (pre ++ body ++ post) = normalizeSlicing parse body)
    ∧ (∀ (J : Type) (parse : String → Option J) (text : String),
        parse text = none →
        normalizeWhole parse text = NormResult.malformedModelOutput) := by
  refine ⟨?_, ?_, ?_⟩
  · intro J parse text h0 h1 hs
    have hcase := jsonSliceL_of_noSpan hs
    unfold normalizeSlicing jsonSlice
    rcases hcase with h | h
    · rw [h, show String.mk ([] : List Char) = "" from rfl, h0]
    · rw [h, show String.mk ['}'] = "\x7d" from rfl, h1]
  · intro J parse pre body post hpre hpost hh hl
    unfold normalizeSlicing jsonSlice
    have h1 : (pre ++ body ++ post).data = pre.data ++ body.data ++ post.data := by
      simp [String.data_append]
    rw [h1, jsonSliceL_append hpre hpost hh hl, jsonSliceL_self hh hl]
  · intro J parse text h
    unfold normalizeWhole
    rw [h]

theorem c5_normalizer_witness :
    normalizeSlicing parseEmptyObject "Sorry, I cannot help."
      = NormResult.malformedModelOutput
    ∧ normalizeSlicing parseEmptyObject ("prose " ++ "\x7b\x7d" ++ " more")
      = normalizeSlicing parseEmptyObject "\x7b\x7d"
    ∧ normalizeWhole parseEmptyObject "Sorry, I cannot help."
      = NormResult.malformedModelOutput := by
  obtain ⟨h1, h2, h3⟩ := c5_normalizer
  refine ⟨h1 Unit parseEmptyObject _ (by decide) (by decide) ?_,
    h2 Unit parseEmptyObject "prose " "\x7b\x7d" " more"
      (by decide) (by decide) (by decide) (by decide),
    h3 Unit parseEmptyObject _ (by decide)⟩
  rintro ⟨i, j, _, hi, _⟩
  have hmem : '{' ∈ "Sorry, I cannot help.".data := List.get?_mem hi
  exact absurd hmem (by decide)
